import Mathlib

/-!
Shallow embedding of the bin-reminder pipeline (src/main.rs) over lists of
characters.  Rust `String` values are modelled as `List Char`; all strings
that flow through the pipeline are ASCII, where byte indexing and character
indexing coincide.  Fallible Rust code (`Result<_, Box<dyn Error>>`) is
modelled by `Res`; a Rust panic (out-of-range string slicing) is the
distinguished outcome `Res.panic`.
-/

/-- The error values that arise in the pipeline: the four `ParseIntError`
kinds produced by `from_str_radix` / `str::parse`, and `Box<dyn Error>`
values built from a `&str` message. -/
inductive RustErr : Type where
  | parseEmpty
  | parseInvalidDigit
  | parsePosOverflow
  | parseNegOverflow
  | msg (s : String)
  deriving DecidableEq

/-- Outcome of a Rust computation: `Ok`, `Err(e)`, or a panic. -/
inductive Res (α : Type) : Type where
  | ok (a : α)
  | err (e : RustErr)
  | panic
  deriving DecidableEq

/-- Sequencing of fallible Rust computations: the `?` operator (errors and
panics propagate). -/
def Res.bind {α β : Type} (r : Res α) (f : α → Res β) : Res β :=
  match r with
  | .ok a => f a
  | .err e => .err e
  | .panic => .panic

/-- The value of an `ok` result, with a default for the other outcomes. -/
def Res.getOkD {α : Type} (r : Res α) (d : α) : α :=
  match r with
  | .ok a => a
  | _ => d

/-- Rust `char::to_digit(radix)`: digits `0`-`9`, then lowercase and
uppercase letters, valid when the digit value is below `radix`
(src/main.rs line 71 uses radix 36, `str::parse` radix 10). -/
def char_to_digit (radix : Nat) (c : Char) : Option Nat :=
  let n := c.toNat
  let d : Option Nat :=
    if 48 ≤ n ∧ n ≤ 57 then some (n - 48)
    else if 97 ≤ n ∧ n ≤ 122 then some (n - 97 + 10)
    else if 65 ≤ n ∧ n ≤ 90 then some (n - 65 + 10)
    else none
  match d with
  | some v => if v < radix then some v else none
  | none => none

/-- Digit-accumulation loop of `i32::from_str_radix` (Rust core):
`checked_mul`/`checked_add` against the `i32` bounds, `InvalidDigit` on a
character that is not a digit of the radix. -/
def fsr_go_i32 (radix : Nat) (is_positive : Bool) : List Char → Int → Res Int
  | [], acc => .ok acc
  | c :: cs, acc =>
    match char_to_digit radix c with
    | none => .err .parseInvalidDigit
    | some x =>
      if is_positive then
        let acc2 : Int := acc * radix + x
        if acc2 > 2147483647 then .err .parsePosOverflow
        else fsr_go_i32 radix is_positive cs acc2
      else
        let acc2 : Int := acc * radix - x
        if acc2 < -2147483648 then .err .parseNegOverflow
        else fsr_go_i32 radix is_positive cs acc2

/-- Rust `i32::from_str_radix(src, radix)` (src/main.rs line 71 with radix
36): empty input is `Empty`, a lone sign is `InvalidDigit`, an optional
leading `+` or `-` sign is consumed, then the digit loop runs. -/
def from_str_radix_i32 (radix : Nat) (src : List Char) : Res Int :=
  match src with
  | [] => .err .parseEmpty
  | c :: rest =>
    if (c = '+' ∨ c = '-') ∧ rest = [] then .err .parseInvalidDigit
    else if c = '+' then fsr_go_i32 radix true rest 0
    else if c = '-' then fsr_go_i32 radix false rest 0
    else fsr_go_i32 radix true (c :: rest) 0

/-- Rust `str::parse::<i32>()` (src/main.rs line 75): `from_str_radix` with
radix 10. -/
def parse_i32 (src : List Char) : Res Int :=
  from_str_radix_i32 10 src

/-- Digit-accumulation loop of `u32::from_str_radix` at radix 10. -/
def fsr_go_u32 : List Char → Nat → Res Nat
  | [], acc => .ok acc
  | c :: cs, acc =>
    match char_to_digit 10 c with
    | none => .err .parseInvalidDigit
    | some x =>
      let acc2 : Nat := acc * 10 + x
      if acc2 > 4294967295 then .err .parsePosOverflow
      else fsr_go_u32 cs acc2

/-- Rust `str::parse::<u32>()` (src/main.rs lines 76-77): a `-` sign is not
consumed for an unsigned type, so it reaches the digit loop and fails as an
invalid digit. -/
def parse_u32 (src : List Char) : Res Nat :=
  match src with
  | [] => .err .parseEmpty
  | c :: rest =>
    if (c = '+' ∨ c = '-') ∧ rest = [] then .err .parseInvalidDigit
    else if c = '+' then fsr_go_u32 rest 0
    else fsr_go_u32 (c :: rest) 0

/-- Rust `i32::to_string()` (src/main.rs line 71): decimal representation,
most significant digit first, `-` prefix for negative values. -/
def int_to_string (i : Int) : List Char :=
  if i < 0 then '-' :: Nat.toDigits 10 i.natAbs else Nat.toDigits 10 i.toNat

/-- Rust string slicing `&s[a..b]` (src/main.rs lines 75-77): panics when
the range is out of bounds.  The sliced strings here are decimal
representations, so they are ASCII and byte ranges are character ranges. -/
def str_slice (s : List Char) (a b : Nat) : Res (List Char) :=
  if a ≤ b ∧ b ≤ s.length then .ok ((s.drop a).take (b - a)) else .panic

/-- A calendar date as carried by `chrono::NaiveDate`: year, month, day. -/
structure Date where
  year : Int
  month : Nat
  day : Nat
  deriving DecidableEq

/-- Proleptic-Gregorian leap-year rule used by `chrono`. -/
def is_leap (y : Int) : Bool :=
  y % 4 == 0 && (y % 100 != 0 || y % 400 == 0)

/-- Number of days of a month (0 for an invalid month number). -/
def days_in_month (y : Int) (m : Nat) : Nat :=
  if m = 1 ∨ m = 3 ∨ m = 5 ∨ m = 7 ∨ m = 8 ∨ m = 10 ∨ m = 12 then 31
  else if m = 4 ∨ m = 6 ∨ m = 9 ∨ m = 11 then 30
  else if m = 2 then (if is_leap y then 29 else 28)
  else 0

/-- `chrono::NaiveDate::from_ymd_opt` (src/main.rs line 74): `Some` exactly
for a valid calendar date.  (chrono additionally restricts years to about
±262000; the years reaching it here are always 2000-2099, far inside that
range, so the restriction is omitted.) -/
def from_ymd_opt (y : Int) (m d : Nat) : Option Date :=
  if 1 ≤ m ∧ m ≤ 12 ∧ 1 ≤ d ∧ d ≤ days_in_month y m then some ⟨y, m, d⟩ else none

/-- `decode_date` (src/main.rs lines 70-81): base-36 conversion, decimal
re-rendering, byte slices `[0..2]`, `[2..4]`, `[4..6]` (in the evaluation
order of the `from_ymd_opt` arguments, each slice directly followed by its
parse), then calendar validation. -/
def decode_date (coded_date : List Char) : Res Date :=
  Res.bind (from_str_radix_i32 36 coded_date) fun v =>
  let date := int_to_string v
  Res.bind (str_slice date 0 2) fun s01 =>
  Res.bind (parse_i32 ('2' :: '0' :: s01)) fun year =>
  Res.bind (str_slice date 2 4) fun s23 =>
  Res.bind (parse_u32 s23) fun month =>
  Res.bind (str_slice date 4 6) fun s45 =>
  Res.bind (parse_u32 s45) fun day =>
  match from_ymd_opt year month day with
  | some d => Res.ok d
  | none => Res.err (RustErr.msg "Date conversion failure")

/-- `format_bin` (src/main.rs lines 61-68). -/
def format_bin (bin_code : Char) : String :=
  if bin_code = 'B' then "Black Bin"
  else if bin_code = 'G' then "Green Bin"
  else if bin_code = 'R' then "Brown Bin"
  else "Unknown Bin '" ++ String.singleton bin_code ++ "'"

/-- `decode_data` (src/main.rs lines 83-90): decode the date (with `?`),
map the bin code. -/
def decode_data (coded_data : List Char × Char) : Res (Date × String) :=
  Res.bind (decode_date coded_data.1) fun decoded_date =>
  Res.ok (decoded_date, format_bin coded_data.2)

/-- Rust slice `get(a..b)` (src/main.rs line 18): `None` when the range is
out of bounds. -/
def slice_get (s : List Char) (a b : Nat) : Option (List Char) :=
  if a ≤ b ∧ b ≤ s.length then some ((s.drop a).take (b - a)) else none

/-- `get_coded_pair` (src/main.rs lines 16-27): characters 0-3 are the date
code, character 4 the bin code; a chunk shorter than 5 characters yields the
malformed-length error. -/
def get_coded_pair (chunk : List Char) : Res (List Char × Char) :=
  match slice_get chunk 0 4 with
  | none => .err (.msg "Coded String length not a multiple of 5")
  | some coded_date =>
    match chunk[4]? with
    | none => .err (.msg "Coded String length not a multiple of 5")
    | some bin_code => .ok (coded_date, bin_code)

/-- Rust `slice::chunks(5)` (src/main.rs line 38): consecutive groups of 5,
the last group holding the remainder when the length is not a multiple
of 5. -/
def chunks5 : List Char → List (List Char)
  | [] => []
  | [a] => [[a]]
  | [a, b] => [[a, b]]
  | [a, b, c] => [[a, b, c]]
  | [a, b, c, d] => [[a, b, c, d]]
  | a :: b :: c :: d :: e :: rest => [a, b, c, d, e] :: chunks5 rest

/-- Rust `Iterator::collect::<Result<Vec<_>, _>>` over a mapped list
(src/main.rs lines 39-40 and 46-47): stops at the first non-`Ok` outcome,
returning it; otherwise the list of values. -/
def map_collect {α β : Type} (f : α → Res β) : List α → Res (List β)
  | [] => .ok []
  | a :: as =>
    match f a with
    | .ok b =>
      match map_collect f as with
      | .ok bs => .ok (b :: bs)
      | .err e => .err e
      | .panic => .panic
    | .err e => .err e
    | .panic => .panic

/-- The chunking-and-pairing stage of `get_coded_pairs` (src/main.rs lines
36-40), applied to the coded-character run. -/
def tokenize_run (run : List Char) : Res (List (List Char × Char)) :=
  map_collect get_coded_pair (chunks5 run)

/-- Rust `str::split(sep)` (src/main.rs line 32): fields between separator
occurrences, empty fields kept, one empty field for the empty string. -/
def rust_split (sep : Char) : List Char → List (List Char)
  | [] => [[]]
  | c :: rest =>
    if c = sep then [] :: rust_split sep rest
    else
      match rust_split sep rest with
      | [] => [[c]]
      | f :: fs => (c :: f) :: fs

/-- `get_coded_pairs` (src/main.rs lines 29-41): split the line on `,`,
take field index 1, chunk it into coded pairs. -/
def get_coded_pairs (coded_data : List Char) : Res (List (List Char × Char)) :=
  match (rust_split ',' coded_data)[1]? with
  | none => .err (.msg "Failed to split on ','")
  | some run => tokenize_run run

/-- One trailing carriage return stripped from a line, as Rust `lines()`
does on a line terminated by `\n` (turning a `\r\n` ending into nothing). -/
def strip_tail_cr (l : List Char) : List Char :=
  if l.getLast? = some '\r' then l.dropLast else l

/-- Accumulator loop of `rust_lines`: `cur` is the current line read so
far.  A `\n` ends the line, removing a `\r` directly before it; the end of
the input yields the final unterminated line verbatim — its trailing `\r`,
if any, is kept — or no line at all when nothing follows the last `\n`. -/
def rust_lines_go (cur : List Char) : List Char → List (List Char)
  | [] => if cur = [] then [] else [cur]
  | c :: rest =>
    if c = '\n' then strip_tail_cr cur :: rust_lines_go [] rest
    else rust_lines_go (cur ++ [c]) rest

/-- Rust `str::lines()` (src/main.rs line 53): lines are separated by `\n`
or `\r\n`; a final `\n` produces no extra empty line, and a `\r` at the
very end of an input not terminated by `\n` stays part of the last line
(Rust keeps `"baz\r"` intact in `"foo\r\nbar\n\nbaz\r"`). -/
def rust_lines (s : List Char) : List (List Char) :=
  rust_lines_go [] s

/-- Rust `str::starts_with` with a string pattern (src/main.rs line 54):
exact, case-sensitive prefix test. -/
def starts_with (s pat : List Char) : Bool :=
  match s, pat with
  | _, [] => true
  | [], _ :: _ => false
  | c :: cs, p :: ps => c = p && starts_with cs ps

/-- The line loop of `get_coded_schedule` (src/main.rs lines 53-58): the
first line starting with the address code is handed to `get_coded_pairs`;
no match is the not-found error. -/
def gcs_loop (address_code : List Char) : List (List Char) → Res (List (List Char × Char))
  | [] => .err (.msg "No result found for specified property")
  | line :: rest =>
    if starts_with line address_code then get_coded_pairs line
    else gcs_loop address_code rest

/-- `get_coded_schedule` (src/main.rs lines 50-59).  The compile-time
constant `env!("ADDRESS_CODE")` is a parameter. -/
def get_coded_schedule (address_code : List Char) (text_result : List Char) :
    Res (List (List Char × Char)) :=
  gcs_loop address_code (rust_lines text_result)

/-- `get_schedule` (src/main.rs lines 43-48): decode every coded pair of
the located line, collecting into one result. -/
def get_schedule (address_code : List Char) (schedule_string : List Char) :
    Res (List (Date × String)) :=
  Res.bind (get_coded_schedule address_code schedule_string) fun pairs =>
  map_collect decode_data pairs

/-- The successor of a calendar date with month and year rollover:
`chrono`'s `NaiveDate + Duration::days(1)` (src/main.rs line 93) on a valid
date. -/
def next_day (d : Date) : Date :=
  if d.day < days_in_month d.year d.month then ⟨d.year, d.month, d.day + 1⟩
  else if d.month < 12 then ⟨d.year, d.month + 1, 1⟩
  else ⟨d.year + 1, 1, 1⟩

/-- The scan loop of `get_tomorrows_bin` (src/main.rs lines 95-100): first
entry whose date equals the target. -/
def gtb_loop (target : Date) : List (Date × String) → Option String
  | [] => none
  | (date, bin) :: rest => if date = target then some bin else gtb_loop target rest

/-- `get_tomorrows_bin` (src/main.rs lines 92-101).  The code reads the
current date from the system clock (`Local::now().date_naive()`); that
external input is the parameter `today`, and the target is `today` plus one
day. -/
def get_tomorrows_bin (today : Date) (schedule : List (Date × String)) : Option String :=
  gtb_loop (next_day today) schedule

/-- The base-36 alphabet of the spec: digits `0`-`9` and letters `A`-`Z`,
`a`-`z`. -/
def is_base36_alpha (c : Char) : Bool :=
  (48 ≤ c.toNat && c.toNat ≤ 57) || (65 ≤ c.toNat && c.toNat ≤ 90)
    || (97 ≤ c.toNat && c.toNat ≤ 122)

/-- Rust `char::to_ascii_uppercase`. -/
def to_ascii_upper (c : Char) : Char :=
  if 97 ≤ c.toNat ∧ c.toNat ≤ 122 then Char.ofNat (c.toNat - 32) else c

/-- Rust `char::to_ascii_lowercase`. -/
def to_ascii_lower (c : Char) : Char :=
  if 65 ≤ c.toNat ∧ c.toNat ≤ 90 then Char.ofNat (c.toNat + 32) else c

/-- The characters `from_str_radix` reads as digits: the input minus an
optional leading sign (a lone sign is kept, it is rejected before the digit
loop). -/
def radix_digits (src : List Char) : List Char :=
  match src with
  | [] => []
  | c :: rest => if (c = '+' ∨ c = '-') ∧ rest ≠ [] then rest else c :: rest

/-- Modelled from the spec: the tokenization of §4.1 — "consecutive groups
of exactly 5 characters, preserving order", "characters 0-3 form the date
code, character 4 is the bin code" — as a recursive definition used to
compare with the code's `tokenize_run`. -/
def spec_tokens : List Char → List (List Char × Char)
  | a :: b :: c :: d :: e :: rest => ([a, b, c, d], e) :: spec_tokens rest
  | _ => []


/-! ### Helper lemmas -/

theorem toNat_ofNat_small (n : Nat) (h : n < 55296) : (Char.ofNat n).toNat = n := by
  have hv : n.isValidChar := Or.inl h
  simp [Char.ofNat, hv, Char.ofNatAux, Char.toNat, UInt32.toNat, UInt32.ofNat']

theorem char_to_digit_upper (c : Char) :
    char_to_digit 36 (to_ascii_upper c) = char_to_digit 36 c := by
  unfold to_ascii_upper char_to_digit
  by_cases h : 97 ≤ c.toNat ∧ c.toNat ≤ 122
  · rw [if_pos h, toNat_ofNat_small (c.toNat - 32) (by omega)]
    simp only []
    rw [if_neg (by omega), if_neg (by omega),
        if_pos (show 65 ≤ c.toNat - 32 ∧ c.toNat - 32 ≤ 90 by omega),
        if_neg (by omega), if_pos h]
    have h2 : c.toNat - 32 - 65 + 10 = c.toNat - 97 + 10 := by omega
    rw [h2]
  · rw [if_neg h]

theorem char_to_digit_lower (c : Char) :
    char_to_digit 36 (to_ascii_lower c) = char_to_digit 36 c := by
  unfold to_ascii_lower char_to_digit
  by_cases h : 65 ≤ c.toNat ∧ c.toNat ≤ 90
  · rw [if_pos h, toNat_ofNat_small (c.toNat + 32) (by omega)]
    simp only []
    rw [if_neg (by omega), if_pos (show 97 ≤ c.toNat + 32 ∧ c.toNat + 32 ≤ 122 by omega),
        if_neg (by omega), if_neg (by omega), if_pos h]
    have h2 : c.toNat + 32 - 97 + 10 = c.toNat - 65 + 10 := by omega
    rw [h2]
  · rw [if_neg h]

theorem bad_digit_none (c : Char) (h : is_base36_alpha c = false) :
    char_to_digit 36 c = none := by
  simp only [is_base36_alpha, Bool.or_eq_false_iff, Bool.and_eq_false_iff,
    decide_eq_false_iff_not, not_le] at h
  simp only [char_to_digit]
  rw [if_neg (by omega), if_neg (by omega), if_neg (by omega)]

theorem alpha_digit (c : Char) (h : is_base36_alpha c = true) :
    ∃ x, char_to_digit 36 c = some x ∧ x ≤ 35 := by
  simp only [is_base36_alpha, Bool.or_eq_true, Bool.and_eq_true, decide_eq_true_eq] at h
  simp only [char_to_digit]
  by_cases h1 : 48 ≤ c.toNat ∧ c.toNat ≤ 57
  · rw [if_pos h1]
    refine ⟨c.toNat - 48, ?_, by omega⟩
    show (if c.toNat - 48 < 36 then some (c.toNat - 48) else none) = some (c.toNat - 48)
    rw [if_pos (by omega)]
  by_cases h2 : 97 ≤ c.toNat ∧ c.toNat ≤ 122
  · rw [if_neg h1, if_pos h2]
    refine ⟨c.toNat - 97 + 10, ?_, by omega⟩
    show (if c.toNat - 97 + 10 < 36 then some (c.toNat - 97 + 10) else none) =
      some (c.toNat - 97 + 10)
    rw [if_pos (by omega)]
  have h3 : 65 ≤ c.toNat ∧ c.toNat ≤ 90 := by omega
  rw [if_neg h1, if_neg h2, if_pos h3]
  refine ⟨c.toNat - 65 + 10, ?_, by omega⟩
  show (if c.toNat - 65 + 10 < 36 then some (c.toNat - 65 + 10) else none) =
    some (c.toNat - 65 + 10)
  rw [if_pos (by omega)]

theorem alpha_ne_sign (c : Char) (h : is_base36_alpha c = true) : c ≠ '+' ∧ c ≠ '-' := by
  constructor <;> rintro rfl <;> exact absurd h (by decide)

theorem fsr_bad_head (radix : Nat) (pos : Bool) (c : Char) (cs : List Char) (acc : Int)
    (hc : char_to_digit radix c = none) :
    fsr_go_i32 radix pos (c :: cs) acc = .err .parseInvalidDigit := by
  simp [fsr_go_i32, hc]

theorem fsr_step_pos (radix : Nat) (c : Char) (cs : List Char) (acc : Int) (x : Nat)
    (hx : char_to_digit radix c = some x) (hb : acc * radix + x ≤ 2147483647) :
    fsr_go_i32 radix true (c :: cs) acc = fsr_go_i32 radix true cs (acc * radix + x) := by
  simp only [fsr_go_i32, hx, if_true]
  rw [if_neg (by omega)]

theorem fsr_step_neg (radix : Nat) (c : Char) (cs : List Char) (acc : Int) (x : Nat)
    (hx : char_to_digit radix c = some x) (hb : -2147483648 ≤ acc * radix - x) :
    fsr_go_i32 radix false (c :: cs) acc = fsr_go_i32 radix false cs (acc * radix - x) := by
  simp only [fsr_go_i32, hx, Bool.false_eq_true, if_false]
  rw [if_neg (by omega)]

theorem map_collect_ok_of_all {α β : Type} (f : α → Res β) (d : β) :
    ∀ l : List α, (∀ a ∈ l, ∃ b, f a = .ok b) →
      map_collect f l = .ok (l.map fun a => (f a).getOkD d)
  | [], _ => rfl
  | a :: as, h => by
    obtain ⟨b, hb⟩ := h a (List.mem_cons_self a as)
    have ih := map_collect_ok_of_all f d as fun u hu => h u (List.mem_cons_of_mem a hu)
    simp [map_collect, hb, ih, Res.getOkD]

theorem map_collect_stops_at {α β : Type} (f : α → Res β) (a : α) (r : Res (List β))
    (hr : ∀ bs, r ≠ .ok bs)
    (ha : (match f a with
           | .ok _ => False
           | .err e => r = .err e
           | .panic => r = .panic)) :
    ∀ pre post, (∀ u ∈ pre, ∃ b, f u = .ok b) →
      map_collect f (pre ++ a :: post) = r
  | [], post, _ => by
    cases hfa : f a with
    | ok b => rw [hfa] at ha; exact absurd ha (by simp)
    | err e => rw [hfa] at ha; simpa [map_collect, hfa] using ha.symm
    | panic => rw [hfa] at ha; simpa [map_collect, hfa] using ha.symm
  | u :: pre, post, h => by
    obtain ⟨b, hb⟩ := h u (List.mem_cons_self u pre)
    have ih := map_collect_stops_at f a r hr ha pre post
      fun v hv => h v (List.mem_cons_of_mem u hv)
    have step : map_collect f ((u :: pre) ++ a :: post)
        = match map_collect f (pre ++ a :: post) with
          | .ok bs => .ok (b :: bs)
          | .err e => .err e
          | .panic => .panic := by
      simp [map_collect, hb]
    rw [step, ih]
    cases r with
    | ok bs => exact absurd rfl (hr bs)
    | err e => rfl
    | panic => rfl

theorem gtb_loop_none (target : Date) :
    ∀ l : List (Date × String), (∀ e ∈ l, e.1 ≠ target) → gtb_loop target l = none
  | [], _ => rfl
  | (date, bin) :: rest, h => by
    have hne : date ≠ target := h (date, bin) (List.mem_cons_self _ rest)
    simp only [gtb_loop, if_neg hne]
    exact gtb_loop_none target rest fun e he => h e (List.mem_cons_of_mem _ he)

theorem gtb_loop_first (target : Date) (lbl : String) (post : List (Date × String)) :
    ∀ pre : List (Date × String), (∀ e ∈ pre, e.1 ≠ target) →
      gtb_loop target (pre ++ (target, lbl) :: post) = some lbl
  | [], _ => by simp [gtb_loop]
  | (date, bin) :: pre, h => by
    have hne : date ≠ target := h (date, bin) (List.mem_cons_self _ pre)
    simp only [List.cons_append, gtb_loop, if_neg hne]
    exact gtb_loop_first target lbl post pre fun e he => h e (List.mem_cons_of_mem _ he)

theorem gcs_loop_none (addr : List Char) :
    ∀ ls : List (List Char), (∀ l ∈ ls, starts_with l addr = false) →
      gcs_loop addr ls = .err (.msg "No result found for specified property")
  | [], _ => rfl
  | line :: rest, h => by
    have hne := h line (List.mem_cons_self _ rest)
    simp only [gcs_loop, hne, Bool.false_eq_true, if_false]
    exact gcs_loop_none addr rest fun l hl => h l (List.mem_cons_of_mem _ hl)

theorem gcs_loop_first (addr line : List Char) (post : List (List Char))
    (hline : starts_with line addr = true) :
    ∀ pre : List (List Char), (∀ l ∈ pre, starts_with l addr = false) →
      gcs_loop addr (pre ++ line :: post) = get_coded_pairs line
  | [], _ => by simp [gcs_loop, hline]
  | l :: pre, h => by
    have hne := h l (List.mem_cons_self _ pre)
    simp only [List.cons_append, gcs_loop, hne, Bool.false_eq_true, if_false]
    exact gcs_loop_first addr line post hline pre fun u hu => h u (List.mem_cons_of_mem _ hu)

/-! ### Claim theorems -/

/-- C1 (code_bug evidence): `decode_date` does not return an error when the
base-36 value of the code has other than 6 decimal digits.  `"0000"` decodes
to 0, whose decimal form `"0"` is shorter than the byte range `[0..2]`, so
the slice panics; `"LP3Q"` decodes to 1012310, whose 7-digit decimal form is
silently truncated to `yy=10`, `mm=12`, `dd=31`, producing the date
2010-12-31 from the first six digits. -/
theorem decode_date_nonsix_digit_panics_or_truncates :
    from_str_radix_i32 36 ['0', '0', '0', '0'] = .ok 0
    ∧ decode_date ['0', '0', '0', '0'] = .panic
    ∧ from_str_radix_i32 36 ['L', 'P', '3', 'Q'] = .ok 1012310
    ∧ decode_date ['L', 'P', '3', 'Q'] = .ok ⟨2010, 12, 31⟩ := by
  refine ⟨by decide, by decide, by decide, by decide⟩

/-- C2: the concrete vectors — `"559H"` decodes to 2024-01-01, `"559I"` to
the next calendar day 2024-01-02 (a different date), and `"559G"` fails with
the invalid-calendar-date error. -/
theorem decode_date_concrete_vectors :
    decode_date ['5', '5', '9', 'H'] = .ok ⟨2024, 1, 1⟩
    ∧ decode_date ['5', '5', '9', 'I'] = .ok ⟨2024, 1, 2⟩
    ∧ (⟨2024, 1, 2⟩ : Date) ≠ ⟨2024, 1, 1⟩
    ∧ (⟨2024, 1, 2⟩ : Date) = next_day ⟨2024, 1, 1⟩
    ∧ decode_date ['5', '5', '9', 'G'] = .err (.msg "Date conversion failure") := by
  refine ⟨by decide, by decide, by decide, by decide, by decide⟩

/-- C8: `format_bin` is total — the three known bin codes map to their
labels, and every other character maps to the fallback string that embeds
the character itself. -/
theorem format_bin_spec :
    format_bin 'B' = "Black Bin"
    ∧ format_bin 'G' = "Green Bin"
    ∧ format_bin 'R' = "Brown Bin"
    ∧ ∀ c : Char, c ≠ 'B' → c ≠ 'G' → c ≠ 'R' →
        format_bin c = "Unknown Bin '" ++ String.singleton c ++ "'" := by
  refine ⟨by decide, by decide, by decide, fun c h1 h2 h3 => ?_⟩
  simp [format_bin, h1, h2, h3]

/-- C8 witness: the fallback at the arbitrary character `T`. -/
theorem format_bin_spec_witness :
    format_bin 'T' = "Unknown Bin '" ++ String.singleton 'T' ++ "'" :=
  format_bin_spec.2.2.2 'T' (by decide) (by decide) (by decide)

/-- C6: `get_tomorrows_bin` targets the day after `today` (with month and
year rollover), returns `none` on the empty schedule and whenever no entry
matches the target, and returns the first matching entry's label when
several entries share the target date. -/
theorem get_tomorrows_bin_spec (today : Date) (sched : List (Date × String)) :
    get_tomorrows_bin today [] = none
    ∧ ((∀ e ∈ sched, e.1 ≠ next_day today) → get_tomorrows_bin today sched = none)
    ∧ (∀ pre lbl post, sched = pre ++ (next_day today, lbl) :: post →
        (∀ e ∈ pre, e.1 ≠ next_day today) → get_tomorrows_bin today sched = some lbl)
    ∧ next_day ⟨2024, 1, 31⟩ = ⟨2024, 2, 1⟩
    ∧ next_day ⟨2024, 12, 31⟩ = ⟨2025, 1, 1⟩
    ∧ next_day ⟨2024, 2, 28⟩ = ⟨2024, 2, 29⟩
    ∧ next_day ⟨2023, 2, 28⟩ = ⟨2023, 3, 1⟩ := by
  refine ⟨rfl, ?_, ?_, by decide, by decide, by decide, by decide⟩
  · exact fun h => gtb_loop_none (next_day today) sched h
  · rintro pre lbl post rfl h
    exact gtb_loop_first (next_day today) lbl post pre h

/-- C6 witness: with today 2024-01-31 the target is 2024-02-01; the first
of the two entries dated 2024-02-01 wins, and a schedule without the target
gives `none`. -/
theorem get_tomorrows_bin_spec_witness :
    get_tomorrows_bin ⟨2024, 1, 31⟩
      [(⟨2024, 1, 1⟩, "X"), (⟨2024, 2, 1⟩, "A"), (⟨2024, 2, 1⟩, "B")] = some "A"
    ∧ get_tomorrows_bin ⟨2024, 1, 31⟩ [(⟨2024, 1, 1⟩, "X")] = none := by
  constructor
  · exact (get_tomorrows_bin_spec ⟨2024, 1, 31⟩ _).2.2.1
      [(⟨2024, 1, 1⟩, "X")] "A" [(⟨2024, 2, 1⟩, "B")] (by decide) (by decide)
  · exact (get_tomorrows_bin_spec ⟨2024, 1, 31⟩ _).2.1 (by decide)

/-- C7: decoding a token sequence maps every token to its (date, label)
entry in input order (the label never failing), and the first token whose
date fails to decode makes the whole result that token's error, with no
partial schedule. -/
theorem decode_tokens_spec (toks : List (List Char × Char)) :
    ((∀ t ∈ toks, ∃ e, decode_data t = .ok e) →
       map_collect decode_data toks
         = .ok (toks.map fun t => (decode_data t).getOkD (⟨0, 1, 1⟩, "")))
    ∧ (∀ pre t post er, toks = pre ++ t :: post →
        (∀ u ∈ pre, ∃ e, decode_data u = .ok e) → decode_data t = .err er →
        map_collect decode_data toks = .err er)
    ∧ (∀ t d, decode_date t.1 = .ok d → decode_data t = .ok (d, format_bin t.2))
    ∧ (∀ t er, decode_data t = .err er ↔ decode_date t.1 = .err er) := by
  refine ⟨fun h => map_collect_ok_of_all decode_data _ toks h, ?_, ?_, ?_⟩
  · rintro pre t post er rfl hpre ht
    exact map_collect_stops_at decode_data t (.err er) (by simp) (by rw [ht]) pre post hpre
  · intro t d hd
    simp [decode_data, Res.bind, hd]
  · intro t er
    cases hd : decode_date t.1 <;> simp [decode_data, Res.bind, hd]

/-- C7 witness: a fully valid token list maps in order, and a list whose
second token has an invalid date yields exactly that token's error. -/
theorem decode_tokens_spec_witness :
    map_collect decode_data [(['5', '5', '9', 'H'], 'B'), (['5', '5', '9', 'I'], 'T')]
      = .ok [(⟨2024, 1, 1⟩, "Black Bin"), (⟨2024, 1, 2⟩, "Unknown Bin 'T'")]
    ∧ map_collect decode_data [(['5', '5', '9', 'H'], 'B'), (['5', '5', '9', 'G'], 'G')]
      = .err (.msg "Date conversion failure") := by
  constructor
  · have h := (decode_tokens_spec [(['5', '5', '9', 'H'], 'B'), (['5', '5', '9', 'I'], 'T')]).1
      (by
        intro t ht
        simp only [List.mem_cons, List.not_mem_nil, or_false] at ht
        rcases ht with rfl | rfl
        · exact ⟨(⟨2024, 1, 1⟩, "Black Bin"), by decide⟩
        · exact ⟨(⟨2024, 1, 2⟩, "Unknown Bin 'T'"), by decide⟩)
    rw [h]; decide
  · exact (decode_tokens_spec [(['5', '5', '9', 'H'], 'B'), (['5', '5', '9', 'G'], 'G')]).2.1
      [(['5', '5', '9', 'H'], 'B')] (['5', '5', '9', 'G'], 'G') [] (.msg "Date conversion failure")
      rfl
      (by
        intro u hu
        simp only [List.mem_cons, List.not_mem_nil, or_false] at hu
        subst hu
        exact ⟨(⟨2024, 1, 1⟩, "Black Bin"), by decide⟩)
      (by decide)

/-- C10: when the selected line's second comma-separated field is empty,
extraction succeeds with no tokens, decoding the empty token list succeeds
with the empty schedule, and the tomorrow scan over it returns `none`. -/
theorem empty_field_empty_schedule (line f0 : List Char) (fs : List (List Char))
    (today : Date) (h : rust_split ',' line = f0 :: [] :: fs) :
    get_coded_pairs line = .ok []
    ∧ map_collect decode_data [] = .ok []
    ∧ get_tomorrows_bin today [] = none := by
  refine ⟨?_, rfl, rfl⟩
  simp [get_coded_pairs, h, tokenize_run, chunks5, map_collect]

/-- C10 witness: the line `test,` splits into the fields `test` and the
empty field. -/
theorem empty_field_empty_schedule_witness :
    get_coded_pairs ['t', 'e', 's', 't', ',']  = .ok []
    ∧ map_collect decode_data [] = .ok []
    ∧ get_tomorrows_bin ⟨2024, 1, 1⟩ [] = none :=
  empty_field_empty_schedule ['t', 'e', 's', 't', ','] ['t', 'e', 's', 't'] []
    ⟨2024, 1, 1⟩ (by decide)

theorem tokenize_run_nil : tokenize_run [] = .ok [] := rfl

theorem map_collect_cons {α β : Type} (f : α → Res β) (a : α) (as : List α) :
    map_collect f (a :: as)
      = Res.bind (f a) fun b => Res.bind (map_collect f as) fun bs => .ok (b :: bs) := by
  cases hfa : f a <;> cases hrest : map_collect f as <;>
    simp [map_collect, Res.bind, hfa, hrest]

theorem tokenize_run_cons5 (a b c d e : Char) (rest : List Char) :
    tokenize_run (a :: b :: c :: d :: e :: rest)
      = Res.bind (tokenize_run rest) fun ts => .ok (([a, b, c, d], e) :: ts) := by
  have hpair : get_coded_pair [a, b, c, d, e] = Res.ok ([a, b, c, d], e) := rfl
  show map_collect get_coded_pair (chunks5 (a :: b :: c :: d :: e :: rest)) = _
  rw [show chunks5 (a :: b :: c :: d :: e :: rest) = [a, b, c, d, e] :: chunks5 rest from rfl,
    map_collect_cons, hpair]
  rfl

/-- C3: tokenization of a coded-character run succeeds exactly when the
run's length is a multiple of 5, in which case it yields the groups of 5
consecutive characters in order (characters 0-3 the date code, character 4
the bin code, as `spec_tokens` spells out), `length / 5` of them; any other
length fails with the malformed-length error. -/
theorem tokenize_run_spec (run : List Char) :
    (run.length % 5 = 0 →
       tokenize_run run = .ok (spec_tokens run)
       ∧ (spec_tokens run).length = run.length / 5)
    ∧ (run.length % 5 ≠ 0 →
       tokenize_run run = .err (.msg "Coded String length not a multiple of 5"))
    ∧ (∀ toks, tokenize_run run = .ok toks → run.length % 5 = 0) := by
  induction run using chunks5.induct with
  | case1 =>
    exact ⟨fun _ => ⟨rfl, rfl⟩, fun h => absurd rfl h, fun _ _ => rfl⟩
  | case2 a =>
    refine ⟨fun h => absurd h (by simp), fun _ => rfl, fun toks h => ?_⟩
    exact absurd h (by simp [tokenize_run, chunks5, map_collect, get_coded_pair, slice_get])
  | case3 a b =>
    refine ⟨fun h => absurd h (by simp), fun _ => rfl, fun toks h => ?_⟩
    exact absurd h (by simp [tokenize_run, chunks5, map_collect, get_coded_pair, slice_get])
  | case4 a b c =>
    refine ⟨fun h => absurd h (by simp), fun _ => rfl, fun toks h => ?_⟩
    exact absurd h (by simp [tokenize_run, chunks5, map_collect, get_coded_pair, slice_get])
  | case5 a b c d =>
    refine ⟨fun h => absurd h (by simp), fun _ => rfl, fun toks h => ?_⟩
    exact absurd h (by simp [tokenize_run, chunks5, map_collect, get_coded_pair, slice_get])
  | case6 a b c d e rest ih =>
    have hlen : (a :: b :: c :: d :: e :: rest).length = rest.length + 5 := by simp
    refine ⟨fun h => ?_, fun h => ?_, fun toks h => ?_⟩
    · have h5 : rest.length % 5 = 0 := by rw [hlen] at h; omega
      obtain ⟨ih1, ih2⟩ := ih.1 h5
      rw [tokenize_run_cons5, ih1]
      refine ⟨rfl, ?_⟩
      simp only [spec_tokens, List.length_cons, hlen, ih2]
      omega
    · have h5 : rest.length % 5 ≠ 0 := by rw [hlen] at h; omega
      rw [tokenize_run_cons5, ih.2.1 h5]
      rfl
    · rw [tokenize_run_cons5] at h
      cases htr : tokenize_run rest with
      | ok ts =>
        have := ih.2.2 ts htr
        rw [hlen]; omega
      | err er => rw [htr] at h; exact absurd h (by simp [Res.bind])
      | panic => rw [htr] at h; exact absurd h (by simp [Res.bind])

/-- C3 witness: a 10-character run yields its two 5-character tokens in
order; a 3-character run fails with the malformed-length error. -/
theorem tokenize_run_spec_witness :
    tokenize_run ['a', 'b', 'c', 'd', 'e', 'f', 'g', 'h', 'i', 'j']
      = .ok [(['a', 'b', 'c', 'd'], 'e'), (['f', 'g', 'h', 'i'], 'j')]
    ∧ tokenize_run ['a', 'b', 'c']
      = .err (.msg "Coded String length not a multiple of 5") := by
  constructor
  · have h := (tokenize_run_spec ['a', 'b', 'c', 'd', 'e', 'f', 'g', 'h', 'i', 'j']).1
      (by decide)
    rw [h.1]; decide
  · exact (tokenize_run_spec ['a', 'b', 'c']).2.1 (by decide)

/-- C5: `get_coded_schedule` scans lines in order and selects the first one
starting with the address key (case-sensitive, exact prefix); with no such
line it fails with the not-found error; the selected line with fewer than 2
comma-separated fields fails with the malformed-line error, and otherwise
its second comma-separated field is the run handed to tokenization. -/
theorem get_coded_schedule_spec (addr text : List Char) :
    ((∀ l ∈ rust_lines text, starts_with l addr = false) →
       get_coded_schedule addr text = .err (.msg "No result found for specified property"))
    ∧ (∀ pre line post, rust_lines text = pre ++ line :: post →
        (∀ l ∈ pre, starts_with l addr = false) → starts_with line addr = true →
        get_coded_schedule addr text = get_coded_pairs line)
    ∧ (∀ line, (rust_split ',' line).length < 2 →
        get_coded_pairs line = .err (.msg "Failed to split on ','"))
    ∧ (∀ line f0 f1 fs, rust_split ',' line = f0 :: f1 :: fs →
        get_coded_pairs line = tokenize_run f1) := by
  refine ⟨?_, ?_, ?_, ?_⟩
  · exact fun h => gcs_loop_none addr (rust_lines text) h
  · rintro pre line post hsplit hpre hline
    show gcs_loop addr (rust_lines text) = _
    rw [hsplit]
    exact gcs_loop_first addr line post hline pre hpre
  · intro line hlen
    have hnone : (rust_split ',' line)[1]? = none := List.getElem?_eq_none (by omega)
    simp [get_coded_pairs, hnone]
  · intro line f0 f1 fs hsplit
    simp [get_coded_pairs, hsplit]

/-- C5 witness: with address key `test`, the second line of
`xx,a` + `test,559HB` is selected; a line without a comma is malformed; the
selected line's second field is what gets tokenized; and a final line not
terminated by `\n` keeps its trailing `\r`, so `test,abcde\r` selects the
whole 11-character line, whose 6-character second field fails with the
malformed-length error. -/
theorem get_coded_schedule_spec_witness :
    get_coded_schedule "test".data "xx,a\ntest,559HB".data = get_coded_pairs "test,559HB".data
    ∧ get_coded_pairs "nocomma".data = .err (.msg "Failed to split on ','")
    ∧ get_coded_pairs "test,559HB".data = tokenize_run "559HB".data
    ∧ get_coded_schedule "test".data "test,abcde\r".data
        = .err (.msg "Coded String length not a multiple of 5") := by
  refine ⟨?_, ?_, ?_, ?_⟩
  · exact (get_coded_schedule_spec "test".data "xx,a\ntest,559HB".data).2.1
      ["xx,a".data] "test,559HB".data [] (by decide) (by decide) (by decide)
  · exact (get_coded_schedule_spec [] []).2.2.1 "nocomma".data (by decide)
  · exact (get_coded_schedule_spec [] []).2.2.2 "test,559HB".data "test".data "559HB".data []
      (by decide)
  · have hsel := (get_coded_schedule_spec "test".data "test,abcde\r".data).2.1
      [] "test,abcde\r".data [] (by decide) (by decide) (by decide)
    rw [hsel]
    decide

theorem fsr_invariant_step (acc x T : Int) (hT : 1 ≤ T) (h0 : 0 ≤ acc)
    (hx : x ≤ 35) (hx0 : 0 ≤ x)
    (hinv : acc * (36 * T) + (36 * T - 1) ≤ 1679615) :
    acc * 36 + x ≤ 2147483647 ∧ 0 ≤ acc * 36 + x
      ∧ (acc * 36 + x) * T + (T - 1) ≤ 1679615 := by
  have h1 : acc * 36 * 1 ≤ acc * 36 * T := by
    apply mul_le_mul_of_nonneg_left hT (by positivity)
  have h2 : x * T ≤ 35 * T := mul_le_mul_of_nonneg_right hx (by linarith)
  refine ⟨by nlinarith, by positivity, by nlinarith⟩

theorem fsr_invariant_step_neg (acc x T : Int) (hT : 1 ≤ T) (h0 : acc ≤ 0)
    (hx : x ≤ 35) (hx0 : 0 ≤ x)
    (hinv : -acc * (36 * T) + (36 * T - 1) ≤ 1679615) :
    -2147483648 ≤ acc * 36 - x ∧ acc * 36 - x ≤ 0
      ∧ -(acc * 36 - x) * T + (T - 1) ≤ 1679615 := by
  have h1 : -acc * 36 * 1 ≤ -acc * 36 * T := by
    apply mul_le_mul_of_nonneg_left hT (by linarith)
  have h2 : x * T ≤ 35 * T := mul_le_mul_of_nonneg_right hx (by linarith)
  refine ⟨by nlinarith, by nlinarith, by nlinarith⟩

theorem fsr_pow_succ_rw (n : Nat) :
    (36 : Int) ^ (n + 1) = 36 * 36 ^ n := by
  rw [pow_succ]; ring

theorem fsr_go_pos_ok :
    ∀ ds : List Char, ∀ acc : Int, (∀ c ∈ ds, is_base36_alpha c = true) → 0 ≤ acc →
      acc * 36 ^ ds.length + (36 ^ ds.length - 1) ≤ 1679615 →
      ∃ v, fsr_go_i32 36 true ds acc = .ok v
  | [], acc, _, _, _ => ⟨acc, rfl⟩
  | c :: cs, acc, h, h0, hinv => by
    obtain ⟨x, hx, hx35⟩ := alpha_digit c (h c (List.mem_cons_self _ _))
    have hT : (1 : Int) ≤ 36 ^ cs.length := one_le_pow₀ (by norm_num)
    rw [List.length_cons, fsr_pow_succ_rw] at hinv
    obtain ⟨hb, h0x, hinv2⟩ :=
      fsr_invariant_step acc x (36 ^ cs.length) hT h0 (by exact_mod_cast hx35)
        (by positivity) (by linarith [hinv])
    rw [fsr_step_pos 36 c cs acc x hx (by push_cast; linarith [hb])]
    exact fsr_go_pos_ok cs (acc * 36 + x) (fun u hu => h u (List.mem_cons_of_mem _ hu))
      h0x (by linarith [hinv2])

theorem fsr_go_neg_ok :
    ∀ ds : List Char, ∀ acc : Int, (∀ c ∈ ds, is_base36_alpha c = true) → acc ≤ 0 →
      -acc * 36 ^ ds.length + (36 ^ ds.length - 1) ≤ 1679615 →
      ∃ v, fsr_go_i32 36 false ds acc = .ok v
  | [], acc, _, _, _ => ⟨acc, rfl⟩
  | c :: cs, acc, h, h0, hinv => by
    obtain ⟨x, hx, hx35⟩ := alpha_digit c (h c (List.mem_cons_self _ _))
    have hT : (1 : Int) ≤ 36 ^ cs.length := one_le_pow₀ (by norm_num)
    rw [List.length_cons, fsr_pow_succ_rw] at hinv
    obtain ⟨hb, h0x, hinv2⟩ :=
      fsr_invariant_step_neg acc x (36 ^ cs.length) hT h0 (by exact_mod_cast hx35)
        (by positivity) (by linarith [hinv])
    rw [fsr_step_neg 36 c cs acc x hx (by push_cast; linarith [hb])]
    exact fsr_go_neg_ok cs (acc * 36 - x) (fun u hu => h u (List.mem_cons_of_mem _ hu))
      h0x (by linarith [hinv2])

theorem fsr_go_pos_bad :
    ∀ ds : List Char, ∀ acc : Int, (∃ c ∈ ds, is_base36_alpha c = false) → 0 ≤ acc →
      acc * 36 ^ ds.length + (36 ^ ds.length - 1) ≤ 1679615 →
      fsr_go_i32 36 true ds acc = .err .parseInvalidDigit
  | [], _, hbad, _, _ => absurd hbad (by simp)
  | c :: cs, acc, hbad, h0, hinv => by
    by_cases hc : is_base36_alpha c = true
    · obtain ⟨w, hw, hwbad⟩ := hbad
      have hwcs : w ∈ cs := by
        rcases List.mem_cons.mp hw with rfl | hmem
        · rw [hc] at hwbad; exact absurd hwbad (by simp)
        · exact hmem
      obtain ⟨x, hx, hx35⟩ := alpha_digit c hc
      have hT : (1 : Int) ≤ 36 ^ cs.length := one_le_pow₀ (by norm_num)
      rw [List.length_cons, fsr_pow_succ_rw] at hinv
      obtain ⟨hb, h0x, hinv2⟩ :=
        fsr_invariant_step acc x (36 ^ cs.length) hT h0 (by exact_mod_cast hx35)
          (by positivity) (by linarith [hinv])
      rw [fsr_step_pos 36 c cs acc x hx (by push_cast; linarith [hb])]
      exact fsr_go_pos_bad cs (acc * 36 + x) ⟨w, hwcs, hwbad⟩ h0x
        (by linarith [hinv2])
    · exact fsr_bad_head 36 true c cs acc
        (bad_digit_none c (Bool.not_eq_true _ ▸ hc))

theorem fsr_go_neg_bad :
    ∀ ds : List Char, ∀ acc : Int, (∃ c ∈ ds, is_base36_alpha c = false) → acc ≤ 0 →
      -acc * 36 ^ ds.length + (36 ^ ds.length - 1) ≤ 1679615 →
      fsr_go_i32 36 false ds acc = .err .parseInvalidDigit
  | [], _, hbad, _, _ => absurd hbad (by simp)
  | c :: cs, acc, hbad, h0, hinv => by
    by_cases hc : is_base36_alpha c = true
    · obtain ⟨w, hw, hwbad⟩ := hbad
      have hwcs : w ∈ cs := by
        rcases List.mem_cons.mp hw with rfl | hmem
        · rw [hc] at hwbad; exact absurd hwbad (by simp)
        · exact hmem
      obtain ⟨x, hx, hx35⟩ := alpha_digit c hc
      have hT : (1 : Int) ≤ 36 ^ cs.length := one_le_pow₀ (by norm_num)
      rw [List.length_cons, fsr_pow_succ_rw] at hinv
      obtain ⟨hb, h0x, hinv2⟩ :=
        fsr_invariant_step_neg acc x (36 ^ cs.length) hT h0 (by exact_mod_cast hx35)
          (by positivity) (by linarith [hinv])
      rw [fsr_step_neg 36 c cs acc x hx (by push_cast; linarith [hb])]
      exact fsr_go_neg_bad cs (acc * 36 - x) ⟨w, hwcs, hwbad⟩ h0x
        (by linarith [hinv2])
    · exact fsr_bad_head 36 false c cs acc
        (bad_digit_none c (Bool.not_eq_true _ ▸ hc))

/-- C4 counterexample: the 4-character code `+123` contains `+`, a
character outside the base-36 alphabet, yet it passes the radix-conversion
step (`from_str_radix` accepts a leading sign), so `decode_date` does not
fail with the invalid-digit error on it. -/
theorem radix_sign_counterexample :
    is_base36_alpha '+' = false
    ∧ from_str_radix_i32 36 ['+', '1', '2', '3'] = .ok 1371
    ∧ decode_date ['+', '1', '2', '3'] ≠ .err .parseInvalidDigit := by
  refine ⟨by decide, by decide, by decide⟩

/-- C4 (amended): for every 4-character date code, if any character other
than a leading `+` or `-` sign lies outside the base-36 alphabet, the
radix-conversion step (and hence `decode_date`) fails with the
invalid-digit error; and every code consisting only of base-36 alphabet
characters passes the radix-conversion step. -/
theorem decode_date_radix_amended (code : List Char) (h4 : code.length = 4) :
    ((∃ c ∈ radix_digits code, is_base36_alpha c = false) →
       from_str_radix_i32 36 code = .err .parseInvalidDigit
       ∧ decode_date code = .err .parseInvalidDigit)
    ∧ ((∀ c ∈ code, is_base36_alpha c = true) →
       ∃ v, from_str_radix_i32 36 code = .ok v) := by
  match code, h4 with
  | [a, b, c, d], _ =>
    constructor
    · intro hbad
      by_cases hsign : a = '+' ∨ a = '-'
      · have hdig : radix_digits [a, b, c, d] = [b, c, d] := by
          simp [radix_digits, hsign]
        rw [hdig] at hbad
        have hfsr : from_str_radix_i32 36 [a, b, c, d] = .err .parseInvalidDigit := by
          rcases hsign with rfl | rfl
          · show fsr_go_i32 36 true [b, c, d] 0 = _
            exact fsr_go_pos_bad [b, c, d] 0 hbad le_rfl (by norm_num)
          · show fsr_go_i32 36 false [b, c, d] 0 = _
            exact fsr_go_neg_bad [b, c, d] 0 hbad le_rfl (by norm_num)
        refine ⟨hfsr, ?_⟩
        show Res.bind (from_str_radix_i32 36 [a, b, c, d]) _ = _
        rw [hfsr]; rfl
      · push_neg at hsign
        have hdig : radix_digits [a, b, c, d] = [a, b, c, d] := by
          simp [radix_digits, hsign.1, hsign.2]
        rw [hdig] at hbad
        have hfsr : from_str_radix_i32 36 [a, b, c, d] = .err .parseInvalidDigit := by
          simp only [from_str_radix_i32]
          rw [if_neg (by simp [hsign.1, hsign.2]), if_neg hsign.1, if_neg hsign.2]
          exact fsr_go_pos_bad [a, b, c, d] 0 hbad le_rfl (by norm_num)
        refine ⟨hfsr, ?_⟩
        show Res.bind (from_str_radix_i32 36 [a, b, c, d]) _ = _
        rw [hfsr]; rfl
    · intro halpha
      obtain ⟨hne1, hne2⟩ := alpha_ne_sign a (halpha a (by simp))
      simp only [from_str_radix_i32]
      rw [if_neg (by simp [hne1, hne2]), if_neg hne1, if_neg hne2]
      exact fsr_go_pos_ok [a, b, c, d] 0 halpha le_rfl (by norm_num)

/-- C4 witness: `559!` has a non-alphabet character after no sign and is
rejected as an invalid digit; `-12!` has one after a leading sign and is
rejected too; `559H` is all-alphabet and passes the radix step. -/
theorem decode_date_radix_amended_witness :
    (from_str_radix_i32 36 ['5', '5', '9', '!'] = .err .parseInvalidDigit
      ∧ decode_date ['5', '5', '9', '!'] = .err .parseInvalidDigit)
    ∧ (from_str_radix_i32 36 ['-', '1', '2', '!'] = .err .parseInvalidDigit
      ∧ decode_date ['-', '1', '2', '!'] = .err .parseInvalidDigit)
    ∧ ∃ v, from_str_radix_i32 36 ['5', '5', '9', 'H'] = .ok v := by
  refine ⟨?_, ?_, ?_⟩
  · exact (decode_date_radix_amended ['5', '5', '9', '!'] (by decide)).1
      ⟨'!', by decide, by decide⟩
  · exact (decode_date_radix_amended ['-', '1', '2', '!'] (by decide)).1
      ⟨'!', by decide, by decide⟩
  · exact (decode_date_radix_amended ['5', '5', '9', 'H'] (by decide)).2 (by decide)

theorem alpha_to_upper (c : Char) (h : is_base36_alpha c = true) :
    is_base36_alpha (to_ascii_upper c) = true := by
  simp only [is_base36_alpha, Bool.or_eq_true, Bool.and_eq_true, decide_eq_true_eq] at h ⊢
  unfold to_ascii_upper
  by_cases hl : 97 ≤ c.toNat ∧ c.toNat ≤ 122
  · rw [if_pos hl, toNat_ofNat_small _ (by omega)]; omega
  · rw [if_neg hl]; omega

theorem alpha_to_lower (c : Char) (h : is_base36_alpha c = true) :
    is_base36_alpha (to_ascii_lower c) = true := by
  simp only [is_base36_alpha, Bool.or_eq_true, Bool.and_eq_true, decide_eq_true_eq] at h ⊢
  unfold to_ascii_lower
  by_cases hl : 65 ≤ c.toNat ∧ c.toNat ≤ 90
  · rw [if_pos hl, toNat_ofNat_small _ (by omega)]; omega
  · rw [if_neg hl]; omega

theorem fsr_go_upper : ∀ (ds : List Char) (acc : Int) (pos : Bool),
    fsr_go_i32 36 pos (ds.map to_ascii_upper) acc = fsr_go_i32 36 pos ds acc
  | [], _, _ => rfl
  | c :: cs, acc, pos => by
    simp only [List.map_cons, fsr_go_i32, char_to_digit_upper]
    cases hc : char_to_digit 36 c with
    | none => rfl
    | some x =>
      simp only []
      split_ifs <;> first | rfl | exact fsr_go_upper cs _ _

theorem fsr_go_lower : ∀ (ds : List Char) (acc : Int) (pos : Bool),
    fsr_go_i32 36 pos (ds.map to_ascii_lower) acc = fsr_go_i32 36 pos ds acc
  | [], _, _ => rfl
  | c :: cs, acc, pos => by
    simp only [List.map_cons, fsr_go_i32, char_to_digit_lower]
    cases hc : char_to_digit 36 c with
    | none => rfl
    | some x =>
      simp only []
      split_ifs <;> first | rfl | exact fsr_go_lower cs _ _

theorem from_str_radix_upper (code : List Char)
    (halpha : ∀ c ∈ code, is_base36_alpha c = true) :
    from_str_radix_i32 36 (code.map to_ascii_upper) = from_str_radix_i32 36 code := by
  cases code with
  | nil => rfl
  | cons c rest =>
    have hc := halpha c (List.mem_cons_self _ _)
    obtain ⟨hne1, hne2⟩ := alpha_ne_sign c hc
    obtain ⟨hu1, hu2⟩ := alpha_ne_sign _ (alpha_to_upper c hc)
    have hcond1 : ¬((to_ascii_upper c = '+' ∨ to_ascii_upper c = '-')
        ∧ List.map to_ascii_upper rest = []) := fun hh => hh.1.elim hu1 hu2
    have hcond2 : ¬((c = '+' ∨ c = '-') ∧ rest = []) := fun hh => hh.1.elim hne1 hne2
    simp only [List.map_cons, from_str_radix_i32]
    rw [if_neg hcond1, if_neg hcond2, if_neg hu1, if_neg hne1, if_neg hu2, if_neg hne2,
      ← List.map_cons]
    exact fsr_go_upper (c :: rest) 0 true

theorem from_str_radix_lower (code : List Char)
    (halpha : ∀ c ∈ code, is_base36_alpha c = true) :
    from_str_radix_i32 36 (code.map to_ascii_lower) = from_str_radix_i32 36 code := by
  cases code with
  | nil => rfl
  | cons c rest =>
    have hc := halpha c (List.mem_cons_self _ _)
    obtain ⟨hne1, hne2⟩ := alpha_ne_sign c hc
    obtain ⟨hu1, hu2⟩ := alpha_ne_sign _ (alpha_to_lower c hc)
    have hcond1 : ¬((to_ascii_lower c = '+' ∨ to_ascii_lower c = '-')
        ∧ List.map to_ascii_lower rest = []) := fun hh => hh.1.elim hu1 hu2
    have hcond2 : ¬((c = '+' ∨ c = '-') ∧ rest = []) := fun hh => hh.1.elim hne1 hne2
    simp only [List.map_cons, from_str_radix_i32]
    rw [if_neg hcond1, if_neg hcond2, if_neg hu1, if_neg hne1, if_neg hu2, if_neg hne2,
      ← List.map_cons]
    exact fsr_go_lower (c :: rest) 0 true

theorem decode_date_congr_fsr (s t : List Char)
    (h : from_str_radix_i32 36 s = from_str_radix_i32 36 t) :
    decode_date s = decode_date t := by
  unfold decode_date
  rw [h]

/-- C9: `decode_date` is case-insensitive on letters — for every
4-character code made only of base-36 alphabet characters, decoding the
uppercase (or lowercase) form of the code yields the same result as
decoding the code itself. -/
theorem decode_date_case_insensitive (code : List Char) (_h4 : code.length = 4)
    (halpha : ∀ c ∈ code, is_base36_alpha c = true) :
    decode_date (code.map to_ascii_upper) = decode_date code
    ∧ decode_date (code.map to_ascii_lower) = decode_date code :=
  ⟨decode_date_congr_fsr _ _ (from_str_radix_upper code halpha),
   decode_date_congr_fsr _ _ (from_str_radix_lower code halpha)⟩

/-- C9 witness: the code `5f9h` decodes identically to its uppercase and
lowercase forms. -/
theorem decode_date_case_insensitive_witness :
    decode_date (['5', 'f', '9', 'h'].map to_ascii_upper) = decode_date ['5', 'f', '9', 'h']
    ∧ decode_date (['5', 'f', '9', 'h'].map to_ascii_lower) = decode_date ['5', 'f', '9', 'h'] :=
  decode_date_case_insensitive ['5', 'f', '9', 'h'] (by decide) (by decide)
